import Mathlib

/-!
Verification development for the Smart Life Hub repository: a Streamlit
personal dashboard (`smartlife_automation.py`) with file-backed managers for
reminders, expenses, a weekly budget and savings goals, plus a command-line
restaurant CSV filter (`filter_bangalore_csv.py`).

Modelling conventions.

* Monetary amounts are rationals (`ℚ`); Python floats are modelled by exact
  rational arithmetic.
* Calendar dates are integers counting days since 1970-01-01 (the civil
  calendar conversions below are the standard Gregorian algorithms).
  Timestamps carrying a time of day are integers counting minutes since
  1970-01-01 00:00.
* JSON / CSV persistence is modelled at the level of typed records: a store's
  persisted state is the list of records it holds, in file order.  String
  cells that the Python code parses (reminder `time` values) are kept as
  strings and parsed by executable parsers mirroring the `strptime` formats
  used in the code.  The expense `Date` column cell is modelled by `DateCell`:
  `valid d` stands for a cell that `pd.to_datetime` parses to day `d` (stored
  in the canonical `YYYY-MM-DD` form the application itself writes), and
  `invalid s` stands for a cell that fails to parse and becomes `NaT`
  (which `to_csv` then writes back as the empty string).
* Alert / insight strings are abstracted to their kind and numeric payload;
  the surrounding emoji text carries no further observable content.
-/

/-! ## Civil calendar arithmetic (Gregorian), days since 1970-01-01 -/

/-- Day count since 1970-01-01 of the civil date `y-m-d` (Gregorian).
Standard era-based conversion; all divisions have non-negative operands. -/
def days_from_civil (y m d : ℤ) : ℤ :=
  let y1 := if m ≤ 2 then y - 1 else y
  let era := y1.ediv 400
  let yoe := y1 - era * 400
  let mp := (m + 9).emod 12
  let doy := (153 * mp + 2).ediv 5 + d - 1
  let doe := yoe * 365 + yoe.ediv 4 - yoe.ediv 100 + doy
  era * 146097 + doe - 719468

/-- Civil date `(year, month, day)` of a day count since 1970-01-01. -/
def civil_from_days (z0 : ℤ) : ℤ × ℤ × ℤ :=
  let z := z0 + 719468
  let era := z.ediv 146097
  let doe := z - era * 146097
  let yoe := (doe - doe.ediv 1460 + doe.ediv 36524 - doe.ediv 146096).ediv 365
  let y := yoe + era * 400
  let doy := doe - (365 * yoe + yoe.ediv 4 - yoe.ediv 100)
  let mp := (5 * doy + 2).ediv 153
  let d := doy - (153 * mp + 2).ediv 5 + 1
  let m := if mp < 10 then mp + 3 else mp - 9
  (if m ≤ 2 then y + 1 else y, m, d)

/-- Weekday with Monday = 0 (1970-01-01 was a Thursday, i.e. 3). -/
def weekdayMon (n : ℤ) : ℤ := (n + 3).emod 7

/-- The Thursday of the ISO week containing day `n`. -/
def isoThursday (n : ℤ) : ℤ := n + 3 - weekdayMon n

/-- ISO-8601 week number (1..53) of day `n`, as computed by pandas
`Series.dt.isocalendar().week`: the week of the year of the week's Thursday. -/
def isoWeekNum (n : ℤ) : ℕ :=
  let t := isoThursday n
  let y := (civil_from_days t).1
  ((t - days_from_civil y 1 1).ediv 7 + 1).toNat

/-- ISO-8601 week-based year of day `n` (the calendar year of the week's
Thursday). -/
def isoYearNum (n : ℤ) : ℤ := (civil_from_days (isoThursday n)).1

/-- The `(ISO year, ISO week)` pair identifying the ISO week of day `n`. -/
def isoPair (n : ℤ) : ℤ × ℤ := (isoYearNum n, (isoWeekNum n : ℤ))

/-- Day count of the first day of the month containing `today`
(`today.replace(day=1)` in the Python code). -/
def startOfMonth (today : ℤ) : ℤ :=
  let c := civil_from_days today
  days_from_civil c.1 c.2.1 1

/-- Day count of the first day of the month before the month containing
`today` (`(start_of_month - timedelta(days=1)).replace(day=1)`). -/
def prevMonthStart (today : ℤ) : ℤ :=
  let p := civil_from_days (startOfMonth today - 1)
  days_from_civil p.1 p.2.1 1

/-- Leap year test of the Gregorian calendar. -/
def isLeap (y : ℤ) : Bool := (y.emod 4 = 0 ∧ y.emod 100 ≠ 0) ∨ y.emod 400 = 0

/-- Number of days in month `m` of year `y`. -/
def daysInMonth (y : ℤ) (m : ℕ) : ℕ :=
  if m = 2 then (if isLeap y then 29 else 28)
  else if m = 4 ∨ m = 6 ∨ m = 9 ∨ m = 11 then 30 else 31

/-! ## Character-level string utilities

These model the Python string operations (`str.strip`, `str.lower`,
substring membership, `strptime` parsing) on a string's character list, so
that every definition evaluates by kernel reduction. -/

/-- Split a character list on a separator character (like Python's
`str.split(sep)` with all fields kept). -/
def splitChars (sep : Char) : List Char → List (List Char)
  | [] => [[]]
  | x :: xs =>
    let r := splitChars sep xs
    if x = sep then [] :: r
    else
      match r with
      | [] => [[x]]
      | g :: gs => (x :: g) :: gs

/-- Digits-only string to number, `none` on empty or non-digit input
(the acceptance condition of a `strptime` numeric field). -/
def digitsToNat (l : List Char) : Option ℕ :=
  if l ≠ [] ∧ l.all Char.isDigit then
    some (l.foldl (fun a c => a * 10 + (c.toNat - 48)) 0)
  else none

/-- Lower-case a character list (Python `str.lower`, ASCII range). -/
def lowerChars (l : List Char) : List Char := l.map Char.toLower

/-- Strip leading and trailing whitespace (Python `str.strip`). -/
def stripChars (l : List Char) : List Char :=
  ((l.dropWhile Char.isWhitespace).reverse.dropWhile Char.isWhitespace).reverse

/-- Does `hay` start with `sub`? -/
def startsWithChars : List Char → List Char → Bool
  | _, [] => true
  | [], _ :: _ => false
  | h :: hs, s :: ss => decide (h = s) && startsWithChars hs ss

/-- Substring membership, Python's `sub in hay` for strings. -/
def hasSubChars : List Char → List Char → Bool
  | [], sub => startsWithChars [] sub
  | h :: hs, sub => startsWithChars (h :: hs) sub || hasSubChars hs sub

/-- Parse `YYYY-MM-DD` (the `"%Y-%m-%d"` `strptime` format) to a day count,
validating month and day ranges as `strptime` does. -/
def parseDateDay (s : String) : Option ℤ :=
  match splitChars '-' s.data with
  | [ys, ms, ds] =>
    match digitsToNat ys, digitsToNat ms, digitsToNat ds with
    | some y, some m, some d =>
      if 1 ≤ y ∧ y ≤ 9999 ∧ 1 ≤ m ∧ m ≤ 12 ∧ 1 ≤ d ∧ d ≤ daysInMonth y m
      then some (days_from_civil y m d) else none
    | _, _, _ => none
  | _ => none

/-- Parse `HH:MM` to minutes past midnight. -/
def parseTimeMin (s : List Char) : Option ℕ :=
  match splitChars ':' s with
  | [hs, ms] =>
    match digitsToNat hs, digitsToNat ms with
    | some h, some mi => if h ≤ 23 ∧ mi ≤ 59 then some (h * 60 + mi) else none
    | _, _ => none
  | _ => none

/-- Parse `YYYY-MM-DD HH:MM` (the `"%Y-%m-%d %H:%M"` `strptime` format) to a
minute count since 1970-01-01 00:00. -/
def parseDateTimeMin (s : String) : Option ℤ :=
  match splitChars ' ' s.data with
  | [ds, ts] =>
    match parseDateDay (String.mk ds), parseTimeMin ts with
    | some d, some t => some (d * 1440 + (t : ℤ))
    | _, _ => none
  | _ => none

/-! ## ReminderManager (`smartlife_automation.py`, lines 51-99)

A persisted reminder record has fields `task`, `time` and (possibly absent in
older records) `completed`; field absence is modelled by `Option`. -/

structure ReminderRec where
  task : String
  time : String
  completed : Option Bool
deriving DecidableEq

/-- ReminderManager.load: reads the persisted list and back-fills a missing
`completed` field to `False`. -/
def reminderLoad (ts : List ReminderRec) : List ReminderRec :=
  ts.map fun t => ⟨t.task, t.time, some (t.completed.getD false)⟩

/-- ReminderManager.save: writes the given list wholesale. -/
def reminderSave (ts : List ReminderRec) : List ReminderRec := ts

/-- ReminderManager.check_reminders at current time `now` (minutes since
epoch): a non-completed reminder is due when its `time` parses as
`"%Y-%m-%d %H:%M"` and is `<= now`, or else parses as `"%Y-%m-%d"` and its
date is `<= now.date()`; unparseable times are skipped. -/
def check_reminders (stored : List ReminderRec) (now : ℤ) : List String :=
  (reminderLoad stored).filterMap fun t =>
    if t.completed.getD false then none
    else
      match parseDateTimeMin t.time with
      | some tm => if tm ≤ now then some t.task else none
      | none =>
        match parseDateDay t.time with
        | some d => if d ≤ now.ediv 1440 then some t.task else none
        | none => none

/-! ## ExpenseManager (`smartlife_automation.py`, lines 102-182) -/

/-- One `Date` cell of the persisted expenses CSV: `valid d` is a cell that
`pd.to_datetime` parses to day `d` (written in the canonical `YYYY-MM-DD`
form the application writes), `invalid s` is a cell that fails to parse
(coerced to `NaT`, which `to_csv` writes back as the empty string). -/
inductive DateCell where
  | valid (day : ℤ)
  | invalid (s : String)
deriving DecidableEq

/-- Is this cell parseable? -/
def DateCell.isValidCell : DateCell → Bool
  | .valid _ => true
  | .invalid _ => false

/-- A persisted expense row (`Item,Amount,Date`). -/
structure ExpenseRow where
  item : String
  amount : ℚ
  date : DateCell
deriving DecidableEq

/-- An in-memory expense row after `load` has run `pd.to_datetime` on the
`Date` column (`none` = `NaT`). -/
structure ParsedExpense where
  item : String
  amount : ℚ
  date : Option ℤ
deriving DecidableEq

/-- ExpenseManager.load: parses the `Date` column with
`pd.to_datetime(..., errors="coerce")`. -/
def expenseLoad (rows : List ExpenseRow) : List ParsedExpense :=
  rows.map fun r =>
    ⟨r.item, r.amount, match r.date with | .valid d => some d | .invalid _ => none⟩

/-- ExpenseManager.save: writes the table with `to_csv`; a parsed date is
written back in `YYYY-MM-DD` form, `NaT` becomes an empty cell. -/
def expenseSave (rows : List ParsedExpense) : List ExpenseRow :=
  rows.map fun r =>
    ⟨r.item, r.amount, match r.date with | some d => .valid d | none => .invalid ""⟩

/-- ISO week numbers (pandas `dt.isocalendar().week`) of the dated rows, in
row order — the `Week` column restricted to rows surviving
`dropna(subset=["Date"])`. -/
def weekNumsList (rows : List ParsedExpense) : List ℕ :=
  rows.filterMap fun r => r.date.map isoWeekNum

/-- Insert into a strictly ascending list, keeping it strictly ascending
(duplicates collapse) — the key order `pandas.groupby` produces. -/
def insertOrd (w : ℕ) : List ℕ → List ℕ
  | [] => [w]
  | x :: xs =>
    if w < x then w :: x :: xs
    else if w = x then x :: xs
    else x :: insertOrd w xs

/-- The distinct group keys in ascending order. -/
def sortDedup (l : List ℕ) : List ℕ := l.foldr insertOrd []

/-- The ascending list of distinct ISO week numbers present among dated
rows — the index of `df.groupby("Week")["Amount"].sum()`. -/
def weekKeys (rows : List ParsedExpense) : List ℕ := sortDedup (weekNumsList rows)

/-- Total amount of the dated rows whose ISO week number is `w` — one group
sum of `df.groupby("Week")["Amount"].sum()`. -/
def groupSum (rows : List ParsedExpense) (w : ℕ) : ℚ :=
  ((rows.filter fun r =>
      match r.date with
      | some d => decide (isoWeekNum d = w)
      | none => false).map ParsedExpense.amount).sum

/-- The series `weekly_spending = df.groupby("Week")["Amount"].sum()`:
group keys ascending, each with its group sum. -/
def weekly_spending (rows : List ParsedExpense) : List (ℕ × ℚ) :=
  (weekKeys rows).map fun w => (w, groupSum rows w)

/-- The week-over-week comparison applied to the reversed series:
`iloc[-1]` against `iloc[-2]`, reporting the percentage increase when the
last group's sum strictly exceeds the second-to-last group's sum. -/
def wowFromSorted : List (ℕ × ℚ) → Option ℚ
  | a :: b :: _ => if b.2 < a.2 then some ((a.2 - b.2) / b.2 * 100) else none
  | _ => none

/-- The week-over-week insight of `ExpenseManager.get_spending_insights`
(lines 154-163), with the emitted message abstracted to its percentage. -/
def weeklyInsight (rows : List ParsedExpense) : Option ℚ :=
  wowFromSorted (weekly_spending rows).reverse

/-- Total amount of rows dated on or after `lo` (the mask
`df["Date"].dt.date >= lo`; `NaT` compares false). -/
def sumFrom (rows : List ParsedExpense) (lo : ℤ) : ℚ :=
  ((rows.filter fun r =>
      match r.date with
      | some d => decide (lo ≤ d)
      | none => false).map ParsedExpense.amount).sum

/-- Total amount of rows dated in `[lo, hi)` (the mask
`(dt.date >= lo) & (dt.date < hi)`; `NaT` compares false). -/
def sumInRange (rows : List ParsedExpense) (lo hi : ℤ) : ℚ :=
  ((rows.filter fun r =>
      match r.date with
      | some d => decide (lo ≤ d ∧ d < hi)
      | none => false).map ParsedExpense.amount).sum

/-- The month-over-month insight of `ExpenseManager.get_spending_insights`
(lines 165-181): `this_month` sums rows dated on or after the first of the
current month (no upper bound), `last_month` sums rows dated in the prior
calendar month; a message (abstracted to its percentage change) is emitted
when both sums are positive and the change exceeds 10. -/
def monthInsight (rows : List ParsedExpense) (today : ℤ) : Option ℚ :=
  if 0 < sumInRange rows (prevMonthStart today) (startOfMonth today)
     ∧ 0 < sumFrom rows (startOfMonth today) then
    if 10 < (sumFrom rows (startOfMonth today)
             - sumInRange rows (prevMonthStart today) (startOfMonth today))
            / sumInRange rows (prevMonthStart today) (startOfMonth today) * 100
    then some ((sumFrom rows (startOfMonth today)
             - sumInRange rows (prevMonthStart today) (startOfMonth today))
            / sumInRange rows (prevMonthStart today) (startOfMonth today) * 100)
    else none
  else none

/-! ## BudgetManager (`smartlife_automation.py`, lines 185-233)

The budget file is written only by `set_weekly_budget`, which always stores
both `weekly_budget` and `week_start` (as an ISO date); a well-formed budget
state is therefore `none` (no budget set) or `some (weekly_budget,
week_start)` with the date already parsed to a day count. -/

/-- The kind of a budget alert message. -/
inductive Alert where
  | exceeded
  | warning
deriving DecidableEq

/-- This week's spending: amounts of rows dated on or after `week_start`. -/
def thisWeekSpent (ws : ℤ) (rows : List ParsedExpense) : ℚ := sumFrom rows ws

/-- BudgetManager.get_budget_alerts: empty when no budget is set or the
expense table is empty; otherwise compares this week's spending against the
weekly budget at the fixed 100 and 80 percent thresholds. -/
def get_budget_alerts (budget : Option (ℚ × ℤ)) (rows : List ParsedExpense) :
    List Alert :=
  match budget with
  | none => []
  | some (wb, ws) =>
    if rows.isEmpty then []
    else if 100 ≤ thisWeekSpent ws rows / wb * 100 then [Alert.exceeded]
    else if 80 ≤ thisWeekSpent ws rows / wb * 100 then [Alert.warning]
    else []

/-! ## GoalManager (`smartlife_automation.py`, lines 236-295) -/

/-- A persisted savings goal (dates as day counts; the JSON file stores them
in `YYYY-MM-DD` form). -/
structure Goal where
  name : String
  target_amount : ℚ
  current_amount : ℚ
  timeframe_months : ℕ
  created : ℤ
  target_date : ℤ
deriving DecidableEq

/-- GoalManager.load: reads the persisted list as-is. -/
def goalLoad (gs : List Goal) : List Goal := gs

/-- GoalManager.save: writes the given list wholesale. -/
def goalSave (gs : List Goal) : List Goal := gs

/-- GoalManager.add on day `today`: appends a goal with `current_amount = 0`,
`created = today` and `target_date = today + 30 * timeframe_months` days. -/
def GoalManager.add (goals : List Goal) (name : String) (target : ℚ)
    (timeframe_months : ℕ) (today : ℤ) : List Goal :=
  goals ++ [⟨name, target, 0, timeframe_months, today,
             today + 30 * (timeframe_months : ℤ)⟩]

/-- Add `a` to the `current_amount` of the goal at position `n`. -/
def updateAt : List Goal → ℕ → ℚ → List Goal
  | [], _, _ => []
  | g :: gs, 0, a =>
    ⟨g.name, g.target_amount, g.current_amount + a, g.timeframe_months,
     g.created, g.target_date⟩ :: gs
  | g :: gs, n + 1, a => g :: updateAt gs n a

/-- GoalManager.update_progress: adds `amount_added` to the goal at
`goal_index` and saves when `0 <= goal_index < len(goals)`; otherwise the
guard fails, no save happens and the persisted list is untouched. -/
def update_progress (goals : List Goal) (goal_index : ℤ) (amount_added : ℚ) :
    List Goal :=
  if 0 ≤ goal_index ∧ goal_index < goals.length
  then updateAt goals goal_index.toNat amount_added
  else goals

/-- A sequence of `update_progress` calls applied in order. -/
def applyUpdates : List (ℤ × ℚ) → List Goal → List Goal
  | [], goals => goals
  | u :: us, goals => applyUpdates us (update_progress goals u.1 u.2)

/-! ## Restaurant filter (`filter_bangalore_csv.py`) -/

/-- One row of the restaurant CSV after `load_data` has run
`pd.to_numeric(df["rating"], errors="coerce")`: `rating = none` is a missing
or unparseable cell (`NaN`); `name`/`cuisine`/`description` cells may be
missing (`NaN`), which the filter replaces by `""` via `fillna`. -/
structure Restaurant where
  name : Option String
  cuisine : Option String
  rating : Option ℚ
  description : Option String
deriving DecidableEq

/-- filter_restaurants: lower-cases and strips the keyword, keeps rows where
the keyword occurs in the lower-cased cuisine or name (a literal-text
reading of `str.contains`, exact for keywords without regex metacharacters)
and where the rating, with `NaN` filled by 0, is at least `min_rating`. -/
def filter_restaurants (df : List Restaurant) (main_menu : String)
    (min_rating : ℚ) : List Restaurant :=
  df.filter fun r =>
    (hasSubChars (lowerChars (r.cuisine.getD "").data)
        (lowerChars (stripChars main_menu.data)) ||
     hasSubChars (lowerChars (r.name.getD "").data)
        (lowerChars (stripChars main_menu.data)))
    && decide (min_rating ≤ r.rating.getD 0)

/-- Characters with a special meaning in Python regular expressions; on
keywords avoiding them, `Series.str.contains` is plain substring search. -/
def regexSpecials : List Char :=
  ['\\', '.', '^', '$', '*', '+', '?', '(', ')', '[', ']', '|',
   Char.ofNat 123, Char.ofNat 125]

/-- Is the string free of regex metacharacters (so that `str.contains`
treats it as a literal)? -/
def regexLiteral (s : String) : Bool :=
  s.data.all fun c => decide (c ∉ regexSpecials)

/-- Modelled from the spec: "case-insensitive substring match of `keyword`
against cuisine OR name", conjoined with "rating >= min_rating" with missing
ratings treated as 0 — the claim's match predicate, which (unlike the code)
does not strip whitespace from the keyword. -/
def specRestaurantMatch (r : Restaurant) (keyword : String) (min_rating : ℚ) :
    Bool :=
  (hasSubChars (lowerChars (r.cuisine.getD "").data) (lowerChars keyword.data) ||
   hasSubChars (lowerChars (r.name.getD "").data) (lowerChars keyword.data))
  && decide (min_rating ≤ r.rating.getD 0)

/-- The keyword as the code actually uses it: stripped of surrounding
whitespace. -/
def strippedKeyword (k : String) : String := String.mk (stripChars k.data)

/-- Modelled from the spec: "the most recent two ISO-week sums" — the
ordering on `(ISO year, ISO week)` pairs under which one week is more recent
than another. -/
def specMoreRecentWeek (p q : ℤ × ℤ) : Prop :=
  q.1 < p.1 ∨ (q.1 = p.1 ∧ q.2 < p.2)

instance (p q : ℤ × ℤ) : Decidable (specMoreRecentWeek p q) := by
  unfold specMoreRecentWeek; infer_instance

/-- Modelled from the spec: the total spent in the ISO week identified by the
`(ISO year, ISO week)` pair `p`. -/
def specWeekSum (rows : List ParsedExpense) (p : ℤ × ℤ) : ℚ :=
  ((rows.filter fun r =>
      match r.date with
      | some d => decide (isoPair d = p)
      | none => false).map ParsedExpense.amount).sum

/-- Modelled from the spec: "sums this calendar month (from day 1 to
today)" — the current-month sum with the upper bound at `today` that the
claim describes. -/
def specThisMonthSum (rows : List ParsedExpense) (today : ℤ) : ℚ :=
  ((rows.filter fun r =>
      match r.date with
      | some d => decide (startOfMonth today ≤ d ∧ d ≤ today)
      | none => false).map ParsedExpense.amount).sum


/-- A two-row expense snapshot straddling a year boundary: ISO week 52 of
2023 and ISO week 2 of 2024. -/
def wowRows : List ParsedExpense :=
  [⟨"a", 100, some (days_from_civil 2023 12 25)⟩,
   ⟨"b", 200, some (days_from_civil 2024 1 8)⟩]

/-- A two-row expense snapshot within one year: ISO weeks 2 and 3 of 2024. -/
def wowRows2 : List ParsedExpense :=
  [⟨"a", 100, some (days_from_civil 2024 1 8)⟩,
   ⟨"b", 300, some (days_from_civil 2024 1 15)⟩]

/-- A two-row expense snapshot with one row in the prior month and one row
dated in the future, after the month of "today" (2024-06-15). -/
def momRows : List ParsedExpense :=
  [⟨"m", 100, some (days_from_civil 2024 5 10)⟩,
   ⟨"f", 200, some (days_from_civil 2024 7 20)⟩]

/-! ## Helper lemmas -/

/-- Membership in an ordered insertion. -/
theorem mem_insertOrd {a w : ℕ} {l : List ℕ} :
    a ∈ insertOrd w l ↔ a = w ∨ a ∈ l := by
  induction l with
  | nil => simp [insertOrd]
  | cons x xs ih =>
    unfold insertOrd
    by_cases h1 : w < x
    · simp only [if_pos h1, List.mem_cons]
    · rw [if_neg h1]
      by_cases h2 : w = x
      · subst h2
        rw [if_pos rfl]
        simp only [List.mem_cons]
        tauto
      · rw [if_neg h2]
        simp only [List.mem_cons, ih]
        tauto

/-- Ordered insertion preserves strict sortedness. -/
theorem pairwise_insertOrd {w : ℕ} {l : List ℕ} (h : l.Pairwise (· < ·)) :
    (insertOrd w l).Pairwise (· < ·) := by
  induction l with
  | nil => simp [insertOrd]
  | cons x xs ih =>
    rcases List.pairwise_cons.mp h with ⟨hx, hxs⟩
    unfold insertOrd
    by_cases h1 : w < x
    · rw [if_pos h1]
      refine List.pairwise_cons.mpr ⟨?_, h⟩
      intro b hb
      rcases List.mem_cons.mp hb with rfl | hb
      · exact h1
      · exact lt_trans h1 (hx b hb)
    · rw [if_neg h1]
      by_cases h2 : w = x
      · rw [if_pos h2]; exact h
      · rw [if_neg h2]
        refine List.pairwise_cons.mpr ⟨?_, ih hxs⟩
        intro b hb
        rcases mem_insertOrd.mp hb with rfl | hb
        · omega
        · exact hx b hb

/-- Membership in the deduplicating sort. -/
theorem mem_sortDedup {a : ℕ} : ∀ {l : List ℕ}, a ∈ sortDedup l ↔ a ∈ l := by
  intro l
  induction l with
  | nil => simp [sortDedup]
  | cons x xs ih =>
    show a ∈ insertOrd x (sortDedup xs) ↔ _
    rw [mem_insertOrd, ih]
    simp [List.mem_cons]

/-- The deduplicating sort is strictly ascending. -/
theorem pairwise_sortDedup : ∀ {l : List ℕ}, (sortDedup l).Pairwise (· < ·) := by
  intro l
  induction l with
  | nil => exact List.Pairwise.nil
  | cons x xs ih => exact pairwise_insertOrd ih

/-- In a strictly ascending list whose maximum is `w1` and whose maximum
below `w1` is `w2`, the reversed list starts with `w1, w2`. -/
theorem sorted_reverse_two (ks : List ℕ) :
    ∀ w1 w2 : ℕ, ks.Pairwise (· < ·) → w1 ∈ ks → w2 ∈ ks → w2 < w1 →
      (∀ a ∈ ks, a ≤ w1 ∧ (a ≠ w1 → a ≤ w2)) →
      ∃ rest, ks.reverse = w1 :: w2 :: rest := by
  induction ks with
  | nil => intro w1 w2 _ h1; simp at h1
  | cons x t ih =>
    intro w1 w2 hp h1 h2 h21 hmax
    rcases List.pairwise_cons.mp hp with ⟨hx, ht⟩
    cases t with
    | nil =>
      simp at h1 h2
      omega
    | cons y t' =>
      have hxy : x < y := hx y (by simp)
      have hw1x : w1 ≠ x := by
        intro he
        have hy := (hmax y (by simp)).1
        omega
      have hw1 : w1 ∈ y :: t' := by
        rcases List.mem_cons.mp h1 with rfl | h
        · exact absurd rfl hw1x
        · exact h
      cases t' with
      | nil =>
        have hw1y : w1 = y := by
          rcases List.mem_cons.mp hw1 with rfl | h
          · rfl
          · simp at h
        subst hw1y
        have hw2 : w2 = x := by
          rcases List.mem_cons.mp h2 with rfl | h
          · rfl
          · rcases List.mem_cons.mp h with rfl | h
            · omega
            · simp at h
        subst hw2
        exact ⟨[], by simp⟩
      | cons z t'' =>
        have hw2y : w2 ∈ y :: z :: t'' := by
          rcases List.mem_cons.mp h2 with rfl | h
          · exfalso
            have hxz : w2 < z := hx z (by simp)
            have hz := hmax z (by simp)
            rcases eq_or_ne z w1 with rfl | hzw
            · have hy := hmax y (by simp)
              have hyz : y < z := (List.pairwise_cons.mp ht).1 z (by simp)
              have : y ≤ w2 := hy.2 (by omega)
              omega
            · have : z ≤ w2 := hz.2 hzw
              omega
          · exact h
        have hmax' : ∀ a ∈ y :: z :: t'', a ≤ w1 ∧ (a ≠ w1 → a ≤ w2) := by
          intro a ha
          exact hmax a (List.mem_cons.mpr (Or.inr ha))
        rcases ih w1 w2 ht hw1 hw2y h21 hmax' with ⟨rest, hrest⟩
        refine ⟨rest ++ [x], ?_⟩
        rw [List.reverse_cons, hrest]
        simp

/-- Sortedness of the week-number group keys. -/
theorem weekKeys_pairwise (rows : List ParsedExpense) :
    (weekKeys rows).Pairwise (· < ·) := pairwise_sortDedup

/-- The group keys are exactly the week numbers occurring among dated rows. -/
theorem mem_weekKeys {rows : List ParsedExpense} {a : ℕ} :
    a ∈ weekKeys rows ↔ a ∈ weekNumsList rows := mem_sortDedup

/-- Pointwise-identity maps are the identity. -/
theorem list_map_eq_self {α : Type} {f : α → α} :
    ∀ {l : List α}, (∀ x ∈ l, f x = x) → l.map f = l := by
  intro l
  induction l with
  | nil => intro _; rfl
  | cons x xs ih =>
    intro h
    rw [List.map_cons, h x (by simp), ih (fun y hy => h y (by simp [hy]))]

/-- The helper `updateAt` preserves the list length. -/
theorem updateAt_length (gs : List Goal) (n : ℕ) (a : ℚ) :
    (updateAt gs n a).length = gs.length := by
  induction gs generalizing n with
  | nil => rfl
  | cons g gs ih =>
    cases n with
    | zero => rfl
    | succ m => simpa [updateAt] using ih m

/-- An `updateAt` with a non-negative amount never decreases `current_amount`. -/
theorem updateAt_current_le (gs : List Goal) (n : ℕ) (a : ℚ) (ha : 0 ≤ a)
    (j : ℕ) (g g' : Goal) (hg : gs[j]? = some g)
    (hg' : (updateAt gs n a)[j]? = some g') :
    g.current_amount ≤ g'.current_amount := by
  induction gs generalizing n j with
  | nil => simp at hg
  | cons x xs ih =>
    cases n with
    | zero =>
      cases j with
      | zero =>
        simp [updateAt] at hg hg'
        subst hg; subst hg'
        simpa using ha
      | succ jj =>
        simp only [updateAt, List.getElem?_cons_succ] at hg hg'
        rw [hg] at hg'
        cases hg'
        exact le_refl _
    | succ m =>
      cases j with
      | zero =>
        simp only [updateAt, List.getElem?_cons_zero] at hg hg'
        rw [hg] at hg'
        cases hg'
        exact le_refl _
      | succ jj =>
        simp only [updateAt, List.getElem?_cons_succ] at hg hg'
        exact ih m jj hg hg'

/-- The method `update_progress` preserves the list length. -/
theorem update_progress_length (gs : List Goal) (i : ℤ) (a : ℚ) :
    (update_progress gs i a).length = gs.length := by
  unfold update_progress
  split
  · exact updateAt_length gs i.toNat a
  · rfl

/-- One `update_progress` call with a non-negative amount never decreases any
goal's `current_amount`. -/
theorem update_progress_current_le (gs : List Goal) (i : ℤ) (a : ℚ)
    (ha : 0 ≤ a) (j : ℕ) (g g' : Goal) (hg : gs[j]? = some g)
    (hg' : (update_progress gs i a)[j]? = some g') :
    g.current_amount ≤ g'.current_amount := by
  unfold update_progress at hg'
  split at hg'
  · exact updateAt_current_le gs i.toNat a ha j g g' hg hg'
  · rw [hg] at hg'
    cases hg'
    exact le_refl _

/-! ## Claim theorems -/

/-- C1: with a weekly budget set (a positive `weekly_budget` and a
`week_start`), `get_budget_alerts` sums the amounts of expenses dated on or
after `week_start`; with `percentage = spent / weekly_budget * 100` it
returns the `exceeded` alert exactly when `percentage >= 100`, the `warning`
alert exactly when `80 <= percentage < 100`, and no alert when
`percentage < 80`; with no budget set it returns the empty list. -/
theorem budget_alert_thresholds (wb : ℚ) (ws : ℤ) (rows : List ParsedExpense)
    (hwb : 0 < wb) :
    (Alert.exceeded ∈ get_budget_alerts (some (wb, ws)) rows ↔
      100 ≤ thisWeekSpent ws rows / wb * 100)
    ∧ (Alert.warning ∈ get_budget_alerts (some (wb, ws)) rows ↔
      (80 ≤ thisWeekSpent ws rows / wb * 100
       ∧ thisWeekSpent ws rows / wb * 100 < 100))
    ∧ (thisWeekSpent ws rows / wb * 100 < 80 →
        get_budget_alerts (some (wb, ws)) rows = [])
    ∧ get_budget_alerts none rows = [] := by
  by_cases hE : rows.isEmpty
  · have hrows : rows = [] := List.isEmpty_iff.mp hE
    subst hrows
    have hz : thisWeekSpent ws ([] : List ParsedExpense) / wb * 100 = 0 := by
      simp [thisWeekSpent, sumFrom]
    rw [hz]
    refine ⟨?_, ?_, ?_, rfl⟩
    · simp [get_budget_alerts]
    · simp [get_budget_alerts]
    · intro _
      simp [get_budget_alerts]
  · have hE' : rows.isEmpty = false := Bool.eq_false_iff.mpr hE
    have halerts : get_budget_alerts (some (wb, ws)) rows =
        if 100 ≤ thisWeekSpent ws rows / wb * 100 then [Alert.exceeded]
        else if 80 ≤ thisWeekSpent ws rows / wb * 100 then [Alert.warning]
        else [] := by
      simp [get_budget_alerts, hE']
    refine ⟨?_, ?_, ?_, rfl⟩
    · rw [halerts]
      split_ifs with h1 h2
      · simp [h1]
      · simp only [List.mem_singleton]
        constructor
        · intro h
          exact absurd h (by decide)
        · intro h
          exact absurd h h1
      · simp [h1]
    · rw [halerts]
      split_ifs with h1 h2
      · simp only [List.mem_singleton]
        constructor
        · intro h
          exact absurd h (by decide)
        · rintro ⟨-, hlt⟩
          linarith
      · simp only [List.mem_singleton, true_iff]
        exact ⟨h2, lt_of_not_le h1⟩
      · simp only [List.not_mem_nil, false_iff]
        rintro ⟨h80, -⟩
        exact h2 h80
    · intro h80
      rw [halerts, if_neg (by linarith), if_neg (by linarith)]

/-- C1 witness: with weekly budget 1000 set on day 19723, a spend of 800
within the week is a warning (80 percent); 1000 is exceeded; 799 gives no
alert; the boundary examples of the claim. -/
theorem budget_alert_thresholds_witness :
    Alert.warning ∈ get_budget_alerts (some ((1000 : ℚ), (19723 : ℤ)))
      [⟨"x", 800, some 19725⟩]
    ∧ get_budget_alerts (some ((1000 : ℚ), (19723 : ℤ)))
        [⟨"x", 1000, some 19725⟩] = [Alert.exceeded]
    ∧ get_budget_alerts (some ((1000 : ℚ), (19723 : ℤ)))
        [⟨"x", 799, some 19725⟩] = [] :=
  ⟨(budget_alert_thresholds 1000 19723 [⟨"x", 800, some 19725⟩]
      (by norm_num)).2.1.mpr
      (by norm_num [thisWeekSpent, sumFrom]),
   by norm_num [get_budget_alerts, thisWeekSpent, sumFrom],
   by norm_num [get_budget_alerts, thisWeekSpent, sumFrom]⟩

/-- C2: for the three list-shaped stores — reminders, expenses, goals —
`save(load())` leaves the persisted content unchanged (same records, same
order, same field values) on every state in the documented storage format:
every reminder record carries its `completed` field and every expense `Date`
cell is a parseable date. -/
theorem save_load_round_trip (rs : List ReminderRec) (es : List ExpenseRow)
    (gs : List Goal)
    (hr : ∀ t ∈ rs, t.completed.isSome = true)
    (he : ∀ e ∈ es, e.date.isValidCell = true) :
    reminderSave (reminderLoad rs) = rs
    ∧ expenseSave (expenseLoad es) = es
    ∧ goalSave (goalLoad gs) = gs := by
  refine ⟨?_, ?_, rfl⟩
  · unfold reminderSave reminderLoad
    refine list_map_eq_self ?_
    intro t ht
    rcases t with ⟨task, time, completed⟩
    cases hc : completed with
    | none =>
      have := hr _ ht
      rw [hc] at this
      simp at this
    | some b => simp
  · unfold expenseSave expenseLoad
    rw [List.map_map]
    refine list_map_eq_self ?_
    intro e he'
    rcases e with ⟨item, amount, date⟩
    cases hd : date with
    | valid d => simp [Function.comp]
    | invalid s =>
      have := he _ he'
      rw [hd] at this
      simp [DateCell.isValidCell] at this

/-- C2 witness: concrete well-formed states of the three stores round-trip
unchanged. -/
theorem save_load_round_trip_witness :
    reminderSave (reminderLoad [⟨"Call Mom", "2024-01-05 09:00", some false⟩])
      = [⟨"Call Mom", "2024-01-05 09:00", some false⟩]
    ∧ expenseSave (expenseLoad [⟨"Groceries", 800, DateCell.valid 19725⟩])
      = [⟨"Groceries", 800, DateCell.valid 19725⟩]
    ∧ goalSave (goalLoad [⟨"Laptop", 12000, 0, 12, 19723, 20083⟩])
      = [⟨"Laptop", 12000, 0, 12, 19723, 20083⟩] :=
  save_load_round_trip _ _ _ (by decide) (by decide)

/-- C4: `check_reminders` is monotonic in the current time: a reminder
reported due at time `T` is also reported due at every later time `T'`. -/
theorem check_reminders_monotone (stored : List ReminderRec) (r : String)
    (T T' : ℤ) (hT : T < T') (hdue : r ∈ check_reminders stored T) :
    r ∈ check_reminders stored T' := by
  unfold check_reminders at hdue ⊢
  rcases List.mem_filterMap.mp hdue with ⟨t, ht, hft⟩
  refine List.mem_filterMap.mpr ⟨t, ht, ?_⟩
  by_cases hc : t.completed.getD false = true
  · rw [if_pos hc] at hft
    exact absurd hft (by simp)
  · rw [if_neg hc] at hft
    rw [if_neg hc]
    cases hp : parseDateTimeMin t.time with
    | some tm =>
      rw [hp] at hft
      have hft' : (if tm ≤ T then some t.task else none) = some r := hft
      show (if tm ≤ T' then some t.task else none) = some r
      by_cases htm : tm ≤ T
      · rw [if_pos htm] at hft'
        rw [if_pos (le_trans htm (le_of_lt hT))]
        exact hft'
      · rw [if_neg htm] at hft'
        exact absurd hft' (by simp)
    | none =>
      rw [hp] at hft
      cases hq : parseDateDay t.time with
      | some d =>
        rw [hq] at hft
        have hft' : (if d ≤ T.ediv 1440 then some t.task else none) = some r :=
          hft
        show (if d ≤ T'.ediv 1440 then some t.task else none) = some r
        by_cases hd : d ≤ T.ediv 1440
        · rw [if_pos hd] at hft'
          have hdiv : T.ediv 1440 ≤ T'.ediv 1440 :=
            Int.ediv_le_ediv (by norm_num) (le_of_lt hT)
          rw [if_pos (le_trans hd hdiv)]
          exact hft'
        · rw [if_neg hd] at hft'
          exact absurd hft' (by simp)
      | none =>
        rw [hq] at hft
        have hft' : (none : Option String) = some r := hft
        exact absurd hft' (by simp)

/-- C4 witness: a reminder due at 2024-01-05 09:00 is still reported due one
hour later. -/
theorem check_reminders_monotone_witness :
    "Call Mom" ∈ check_reminders
      [⟨"Call Mom", "2024-01-05 09:00", some false⟩]
      (days_from_civil 2024 1 5 * 1440 + 600) :=
  check_reminders_monotone _ _ (days_from_civil 2024 1 5 * 1440 + 540) _
    (by decide) (by decide)

/-- C5 counterexample: the claim fails as stated — a single in-range
`update_progress` call with amount `-50` on a goal with `current_amount =
100` is a sequence of in-range progress updates after which `current_amount`
has decreased to `50`. -/
theorem update_progress_decrease_counterexample :
    ((0 : ℤ) ≤ 0 ∧ (0 : ℤ) <
        ([⟨"g", 1000, 100, 1, 19723, 19753⟩] : List Goal).length)
    ∧ (applyUpdates [((0 : ℤ), (-50 : ℚ))]
        [⟨"g", 1000, 100, 1, 19723, 19753⟩]).map Goal.current_amount = [50]
    ∧ ((50 : ℚ) < 100) := by
  refine ⟨by decide, ?_, by norm_num⟩
  norm_num [applyUpdates, update_progress, updateAt]

/-- C5 (amended): for every goal list and every sequence of `update_progress`
calls with in-range indices and non-negative amounts, no goal's
`current_amount` ever decreases. -/
theorem update_progress_monotone (gs : List Goal) (ups : List (ℤ × ℚ))
    (h : ∀ p ∈ ups, 0 ≤ p.1 ∧ p.1 < gs.length ∧ 0 ≤ p.2)
    (j : ℕ) (g g' : Goal) (hg : gs[j]? = some g)
    (hg' : (applyUpdates ups gs)[j]? = some g') :
    g.current_amount ≤ g'.current_amount := by
  induction ups generalizing gs g with
  | nil =>
    unfold applyUpdates at hg'
    rw [hg] at hg'
    cases hg'
    exact le_refl _
  | cons u us ih =>
    have hlen : (update_progress gs u.1 u.2).length = gs.length :=
      update_progress_length gs u.1 u.2
    have hj : j < gs.length := by
      rcases Nat.lt_or_ge j gs.length with h' | h'
      · exact h'
      · exfalso
        rw [List.getElem?_eq_none h'] at hg
        cases hg
    obtain ⟨g1, hg1⟩ : ∃ g1, (update_progress gs u.1 u.2)[j]? = some g1 := by
      have hj1 : j < (update_progress gs u.1 u.2).length := by omega
      exact ⟨_, List.getElem?_eq_getElem hj1⟩
    have step := update_progress_current_le gs u.1 u.2
      (h u (by simp)).2.2 j g g1 hg hg1
    have rest := ih (update_progress gs u.1 u.2)
      (fun p hp => by
        rcases h p (by simp [hp]) with ⟨hp1, hp2, hp3⟩
        exact ⟨hp1, by omega, hp3⟩)
      g1 hg1 hg'
    exact le_trans step rest

/-- C5 witness: one in-range update of `+50` takes `current_amount` from 100
to 150, which does not decrease it. -/
theorem update_progress_monotone_witness :
    (applyUpdates [((0 : ℤ), (50 : ℚ))] [⟨"g", 1000, 100, 1, 0, 30⟩])[0]?
      = some ⟨"g", 1000, 150, 1, 0, 30⟩
    ∧ (100 : ℚ) ≤ 150 :=
  ⟨by norm_num [applyUpdates, update_progress, updateAt],
   update_progress_monotone [⟨"g", 1000, 100, 1, 0, 30⟩] [((0 : ℤ), (50 : ℚ))]
     (by norm_num) 0 ⟨"g", 1000, 100, 1, 0, 30⟩ ⟨"g", 1000, 150, 1, 0, 30⟩
     (by decide) (by norm_num [applyUpdates, update_progress, updateAt])⟩

/-- C6: `update_progress` with an index outside `[0, length)` raises no
error and returns without calling `save`, leaving the persisted goal list
unchanged. -/
theorem update_progress_out_of_range_noop (gs : List Goal) (i : ℤ) (a : ℚ)
    (h : ¬ (0 ≤ i ∧ i < gs.length)) :
    update_progress gs i a = gs := by
  unfold update_progress
  rw [if_neg h]

/-- C6 witness: index 5 on a one-goal list, and index -1, are no-ops. -/
theorem update_progress_out_of_range_noop_witness :
    update_progress [⟨"g", 1000, 100, 1, 0, 30⟩] 5 7
      = [⟨"g", 1000, 100, 1, 0, 30⟩]
    ∧ update_progress [⟨"g", 1000, 100, 1, 0, 30⟩] (-1) 7
      = [⟨"g", 1000, 100, 1, 0, 30⟩] :=
  ⟨update_progress_out_of_range_noop _ 5 7 (by decide),
   by decide⟩

/-- C7: a goal added on day `d` with `timeframe_months = m` is appended with
`current_amount = 0`, `created = d` and `target_date = d + 30 * m` days (so
`m = 12` gives `d + 360`); the final conjunct shows 30-day months are not
calendar-accurate: 12 calendar months from 2024-01-15 span 366 days, not
360. -/
theorem goal_add_fields (goals : List Goal) (nm : String) (t : ℚ) (m : ℕ)
    (today : ℤ) :
    (∃ g, GoalManager.add goals nm t m today = goals ++ [g]
       ∧ g.current_amount = 0 ∧ g.created = today
       ∧ g.target_date = today + 30 * (m : ℤ))
    ∧ days_from_civil 2025 1 15 - days_from_civil 2024 1 15 ≠ (360 : ℤ) :=
  ⟨⟨_, rfl, rfl, rfl, rfl⟩, by decide⟩

/-- C10: `get_budget_alerts` returns at most one alert, and the `exceeded`
and `warning` alerts are mutually exclusive. -/
theorem budget_alerts_at_most_one (budget : Option (ℚ × ℤ))
    (rows : List ParsedExpense) :
    (get_budget_alerts budget rows).length ≤ 1
    ∧ ¬ (Alert.exceeded ∈ get_budget_alerts budget rows
         ∧ Alert.warning ∈ get_budget_alerts budget rows) := by
  rcases budget with _ | ⟨wb, ws⟩
  · simp [get_budget_alerts]
  · by_cases hE : rows.isEmpty
    · have h0 : get_budget_alerts (some (wb, ws)) rows = [] := by
        simp [get_budget_alerts, hE]
      rw [h0]
      simp
    · have hE' : rows.isEmpty = false := Bool.eq_false_iff.mpr hE
      have h0 : get_budget_alerts (some (wb, ws)) rows =
          if 100 ≤ thisWeekSpent ws rows / wb * 100 then [Alert.exceeded]
          else if 80 ≤ thisWeekSpent ws rows / wb * 100 then [Alert.warning]
          else [] := by
        simp [get_budget_alerts, hE']
      rw [h0]
      split_ifs <;> simp

/-- C3 counterexample: the claim fails as stated — this snapshot contains
two distinct ISO weeks, (2023, 52) and (2024, 2); the more recent week's sum
(200) strictly exceeds the older week's (100), so the claim requires a
week-over-week increase report, but the code (which groups by bare week
number and takes the two largest group keys) produces none. -/
theorem weekly_trend_counterexample :
    weeklyInsight wowRows = none
    ∧ wowRows.filterMap (fun r => r.date.map isoPair) = [(2023, 52), (2024, 2)]
    ∧ specMoreRecentWeek (2024, 2) (2023, 52)
    ∧ specWeekSum wowRows (2023, 52) < specWeekSum wowRows (2024, 2) := by
  have hkeys : weekKeys wowRows = [2, 52] := by decide
  have hf52 : List.filter (fun r =>
      match r.date with
      | some d => decide (isoWeekNum d = 52)
      | none => false) wowRows
      = [⟨"a", 100, some (days_from_civil 2023 12 25)⟩] := by decide
  have hf2 : List.filter (fun r =>
      match r.date with
      | some d => decide (isoWeekNum d = 2)
      | none => false) wowRows
      = [⟨"b", 200, some (days_from_civil 2024 1 8)⟩] := by decide
  have h52 : groupSum wowRows 52 = 100 := by
    unfold groupSum
    rw [hf52]
    norm_num
  have h2 : groupSum wowRows 2 = 200 := by
    unfold groupSum
    rw [hf2]
    norm_num
  refine ⟨?_, by decide, by decide, ?_⟩
  · unfold weeklyInsight weekly_spending
    rw [hkeys]
    simp only [List.map_cons, List.map_nil, List.reverse_cons, List.reverse_nil,
      List.nil_append, List.cons_append, wowFromSorted]
    rw [h52, h2]
    norm_num
  · have hs1 : List.filter (fun r =>
        match r.date with
        | some d => decide (isoPair d = ((2023 : ℤ), (52 : ℤ)))
        | none => false) wowRows
        = [⟨"a", 100, some (days_from_civil 2023 12 25)⟩] := by decide
    have hs2 : List.filter (fun r =>
        match r.date with
        | some d => decide (isoPair d = ((2024 : ℤ), (2 : ℤ)))
        | none => false) wowRows
        = [⟨"b", 200, some (days_from_civil 2024 1 8)⟩] := by decide
    unfold specWeekSum
    rw [hs1, hs2]
    norm_num

/-- C3 (amended): the week-over-week insight groups dated expenses by bare
ISO week number (ignoring the ISO year); with the groups ordered by week
number, it compares the sums of the two largest week numbers present, `w1 >
w2`, and reports the percentage increase exactly when the sum for `w1`
strictly exceeds the sum for `w2`; no message when fewer than two distinct
week numbers exist. -/
theorem weekly_trend_amended (rows : List ParsedExpense) (w1 w2 : ℕ)
    (h21 : w2 < w1) (h1 : w1 ∈ weekNumsList rows) (h2 : w2 ∈ weekNumsList rows)
    (hmax : ∀ w ∈ weekNumsList rows, w ≤ w1 ∧ (w ≠ w1 → w ≤ w2)) :
    weeklyInsight rows =
      if groupSum rows w2 < groupSum rows w1
      then some ((groupSum rows w1 - groupSum rows w2) / groupSum rows w2 * 100)
      else none := by
  rcases sorted_reverse_two (weekKeys rows) w1 w2 (weekKeys_pairwise rows)
      (mem_weekKeys.mpr h1) (mem_weekKeys.mpr h2) h21
      (fun a ha => hmax a (mem_weekKeys.mp ha)) with ⟨rest, hrest⟩
  unfold weeklyInsight weekly_spending
  rw [← List.map_reverse, hrest]
  simp only [List.map_cons, wowFromSorted]

/-- C3 witness: with ISO weeks 2 and 3 of 2024 summing to 100 and 300, the
insight reports a 200 percent increase. -/
theorem weekly_trend_amended_witness : weeklyInsight wowRows2 = some 200 := by
  rw [weekly_trend_amended wowRows2 3 2 (by decide) (by decide) (by decide)
      (by decide)]
  have hf3 : List.filter (fun r =>
      match r.date with
      | some d => decide (isoWeekNum d = 3)
      | none => false) wowRows2
      = [⟨"b", 300, some (days_from_civil 2024 1 15)⟩] := by decide
  have hf2 : List.filter (fun r =>
      match r.date with
      | some d => decide (isoWeekNum d = 2)
      | none => false) wowRows2
      = [⟨"a", 100, some (days_from_civil 2024 1 8)⟩] := by decide
  have h3 : groupSum wowRows2 3 = 300 := by
    unfold groupSum
    rw [hf3]
    norm_num
  have h2 : groupSum wowRows2 2 = 100 := by
    unfold groupSum
    rw [hf2]
    norm_num
  rw [h3, h2]
  norm_num

/-- C8 counterexample: the claim fails as stated — the code strips the
keyword before matching, so the query `" pizza "` (with surrounding spaces)
matches a record with cuisine `"Pizza"`, although `" pizza "` does not occur
as a substring of the cuisine or the name as the claim's predicate
requires. -/
theorem restaurant_filter_counterexample :
    filter_restaurants [⟨some "Pizza Hut", some "Pizza", some 5, some ""⟩]
      " pizza " 0
      = [⟨some "Pizza Hut", some "Pizza", some 5, some ""⟩]
    ∧ specRestaurantMatch ⟨some "Pizza Hut", some "Pizza", some 5, some ""⟩
        " pizza " 0 = false := by
  exact ⟨by decide, by decide⟩

/-- C8 (amended): for keywords whose stripped form is free of regex
metacharacters (so that `str.contains` is a literal search), a record passes
`filter_restaurants` exactly when the stripped keyword occurs
case-insensitively as a substring of the cuisine or the name, and its
rating — missing or unparseable treated as 0 — is at least `min_rating`
(inclusive comparison). -/
theorem restaurant_filter_amended (df : List Restaurant) (k : String)
    (mr : ℚ) (r : Restaurant)
    (hk : regexLiteral (strippedKeyword k) = true) :
    r ∈ filter_restaurants df k mr ↔
      r ∈ df ∧ specRestaurantMatch r (strippedKeyword k) mr = true := by
  unfold filter_restaurants
  rw [List.mem_filter]
  unfold specRestaurantMatch strippedKeyword
  rfl

/-- C8 witness: a record with rating exactly 4 passes the filter at
`min_rating = 4` (inclusive boundary) and fails at `min_rating = 5`. -/
theorem restaurant_filter_amended_witness :
    ((⟨some "Olive Bistro", some "Italian", some 4, some ""⟩ : Restaurant)
      ∈ filter_restaurants
          [⟨some "Olive Bistro", some "Italian", some 4, some ""⟩] "Italian" 4)
    ∧ filter_restaurants
        [⟨some "Olive Bistro", some "Italian", some 4, some ""⟩] "Italian" 5
      = [] :=
  ⟨(restaurant_filter_amended _ "Italian" 4 _ (by decide)).mpr
      ⟨by decide, by decide⟩,
   by decide⟩

/-- C9 counterexample: the claim fails as stated — with today = 2024-06-15,
a snapshot holding 100 in May and 200 dated 2024-07-20 (in the future, not
in the current calendar month) makes the code report a 100 percent increase,
although the claim's current-month sum (day 1 to today) is 0 and the claim
therefore requires no message. -/
theorem month_insight_counterexample :
    monthInsight momRows (days_from_civil 2024 6 15) = some 100
    ∧ specThisMonthSum momRows (days_from_civil 2024 6 15) = 0
    ∧ sumInRange momRows (prevMonthStart (days_from_civil 2024 6 15))
        (startOfMonth (days_from_civil 2024 6 15)) = 100 := by
  have hfF : List.filter (fun r =>
      match r.date with
      | some d => decide (startOfMonth (days_from_civil 2024 6 15) ≤ d)
      | none => false) momRows
      = [⟨"f", 200, some (days_from_civil 2024 7 20)⟩] := by decide
  have hfR : List.filter (fun r =>
      match r.date with
      | some d => decide (prevMonthStart (days_from_civil 2024 6 15) ≤ d
          ∧ d < startOfMonth (days_from_civil 2024 6 15))
      | none => false) momRows
      = [⟨"m", 100, some (days_from_civil 2024 5 10)⟩] := by decide
  have hfS : List.filter (fun r =>
      match r.date with
      | some d => decide (startOfMonth (days_from_civil 2024 6 15) ≤ d
          ∧ d ≤ days_from_civil 2024 6 15)
      | none => false) momRows = [] := by decide
  have hF : sumFrom momRows (startOfMonth (days_from_civil 2024 6 15))
      = 200 := by
    unfold sumFrom
    rw [hfF]
    norm_num
  have hR : sumInRange momRows (prevMonthStart (days_from_civil 2024 6 15))
      (startOfMonth (days_from_civil 2024 6 15)) = 100 := by
    unfold sumInRange
    rw [hfR]
    norm_num
  refine ⟨?_, ?_, hR⟩
  · unfold monthInsight
    rw [hF, hR]
    norm_num
  · unfold specThisMonthSum
    rw [hfS]
    norm_num

/-- C9 (amended): the month-over-month insight compares the sum of expenses
dated on or after the first of the current month — with no upper bound, so
future-dated expenses count toward the current month — against the sum of
expenses dated within the prior calendar month, and emits a message exactly
when both sums are strictly positive and the relative change exceeds +10
percent; a decrease is never reported. -/
theorem month_insight_amended (rows : List ParsedExpense) (today : ℤ)
    (p : ℚ) :
    monthInsight rows today = some p ↔
      (0 < sumInRange rows (prevMonthStart today) (startOfMonth today)
       ∧ 0 < sumFrom rows (startOfMonth today)
       ∧ 10 < (sumFrom rows (startOfMonth today)
               - sumInRange rows (prevMonthStart today) (startOfMonth today))
              / sumInRange rows (prevMonthStart today) (startOfMonth today)
              * 100
       ∧ p = (sumFrom rows (startOfMonth today)
               - sumInRange rows (prevMonthStart today) (startOfMonth today))
              / sumInRange rows (prevMonthStart today) (startOfMonth today)
              * 100) := by
  unfold monthInsight
  split_ifs with h1 h2
  · simp only [Option.some.injEq]
    constructor
    · intro h
      exact ⟨h1.1, h1.2, h2, h.symm⟩
    · rintro ⟨-, -, -, hp⟩
      exact hp.symm
  · constructor
    · intro h
      exact absurd h (by simp)
    · rintro ⟨-, -, h10, -⟩
      exact absurd h10 h2
  · constructor
    · intro h
      exact absurd h (by simp)
    · rintro ⟨hL, hT, -, -⟩
      exact h1 ⟨hL, hT⟩
